import Mathlib

/-!
Verification development for the LSP proxy core of `dart-re-analyzer`
(`src/lsp/mod.rs`, with collaborators from `src/parser/mod.rs` and
`src/error.rs`).

The Rust source is shallowly embedded: pure fragments become Lean
functions, the stateful event loop becomes explicit state passing, the
byte streams become lists of byte values (`Nat`, each intended `< 256`),
JSON values (`serde_json::Value`) become an inductive `JsonValue`, and
the diagnostics cache (`HashMap<String, Vec<Diagnostic>>`) becomes an
association list with replace-on-insert semantics and exact-key lookup.
-/

/-! ## Data model (from `src/error.rs`) -/

/-- Severity of a diagnostic, from `enum Severity` in `src/error.rs`. -/
inductive Severity where
  | error
  | warning
  | info
deriving DecidableEq

/-- Rule category, from `enum RuleCategory` in `src/error.rs`. -/
inductive RuleCategory where
  | style
  | runtime
deriving DecidableEq

/-- Source location, from `struct Location` in `src/error.rs`.
`line` and `column` are 1-indexed `usize` values, embedded as `Nat`. -/
structure Location where
  file : String
  line : Nat
  column : Nat
  end_line : Option Nat
  end_column : Option Nat
deriving DecidableEq

/-- A diagnostic, from `struct Diagnostic` in `src/error.rs`. -/
structure Diagnostic where
  rule_id : String
  message : String
  severity : Severity
  category : RuleCategory
  location : Location
  suggestion : Option String
deriving DecidableEq

/-! ## JSON values (embedding of `serde_json::Value`)

Object fields are kept as an ordered association list; serde_json maps
have unique keys, and all accesses below use first-match semantics. -/

/-- Embedding of `serde_json::Value`. Numbers occurring in the proxy's
own messages are all non-negative integers, so `num` carries a `Nat`. -/
inductive JsonValue where
  | null
  | bool (b : Bool)
  | num (n : Nat)
  | str (s : String)
  | arr (elems : List JsonValue)
  | obj (fields : List (String × JsonValue))

/-- First field of an object with the given key
(embeds `Value::get` on objects). -/
def JsonValue.getField : JsonValue → String → Option JsonValue
  | .obj fields, k => assocGet fields k
  | _, _ => none
where
  assocGet : List (String × JsonValue) → String → Option JsonValue
    | [], _ => none
    | (k', v) :: rest, k => if k' = k then some v else assocGet rest k

/-- String content of a JSON string (embeds `Value::as_str`). -/
def JsonValue.asStr : JsonValue → Option String
  | .str s => some s
  | _ => none

/-- Replace the first field with the given key (embeds in-place mutation
through `Value::get_mut`; a no-op when the key is absent). -/
def JsonValue.setField : JsonValue → String → JsonValue → JsonValue
  | .obj fields, k, v => .obj (assocSet fields k v)
  | j, _, _ => j
where
  assocSet : List (String × JsonValue) → String → JsonValue → List (String × JsonValue)
    | [], _, _ => []
    | (k', v') :: rest, k, v => if k' = k then (k, v) :: rest else (k', v') :: assocSet rest k v

/-! ## Diagnostics cache

The Rust cache is `HashMap<String, Vec<Diagnostic>>`; we use an
association list whose `lookup` is exact string equality (as `HashMap`
key equality is) and whose insert replaces an existing binding. -/

/-- The diagnostics cache: file path → diagnostics for that file. -/
def Cache := List (String × List Diagnostic)

/-- Exact-key lookup in the cache (embeds `HashMap::get`). -/
def Cache.get : Cache → String → Option (List Diagnostic)
  | [], _ => none
  | (k, v) :: rest, p => if k = p then some v else Cache.get rest p

/-- Insert-or-replace (embeds `HashMap::insert`). -/
def Cache.insert : Cache → String → List Diagnostic → Cache
  | [], k, v => [(k, v)]
  | (k', v') :: rest, k, v =>
      if k' = k then (k, v) :: rest else (k', v') :: Cache.insert rest k v

/-! ## Severity mapping and diagnostic conversion
(`LspProxy::diagnostic_to_lsp`, `src/lsp/mod.rs:141-164`) -/

/-- The numeric LSP severity, from the `match` in `diagnostic_to_lsp`. -/
def severityToLsp : Severity → Nat
  | .error => 1
  | .warning => 2
  | .info => 3

/-- Embedding of `LspProxy::diagnostic_to_lsp`. Rust's
`usize::saturating_sub(1)` is exactly `Nat` subtraction by 1. -/
def diagnostic_to_lsp (diag : Diagnostic) : JsonValue :=
  .obj [
    ("range", .obj [
      ("start", .obj [
        ("line", .num (diag.location.line - 1)),
        ("character", .num (diag.location.column - 1))]),
      ("end", .obj [
        ("line", .num (diag.location.line - 1)),
        ("character", .num (diag.location.column - 1 + 1))])]),
    ("severity", .num (severityToLsp diag.severity)),
    ("code", .str diag.rule_id),
    ("source", .str "dart-re-analyzer"),
    ("message", .str diag.message)]

/-! ## URI → path conversion (`uri.strip_prefix("file://").unwrap_or(uri)`) -/

/-- Drop `pre` from the front of `l`, or `none` if `pre` is not there
(embeds `str::strip_prefix` at the character-list level). -/
def dropStart {α : Type} [DecidableEq α] : List α → List α → Option (List α)
  | [], l => some l
  | _ :: _, [] => none
  | p :: ps, x :: xs => if x = p then dropStart ps xs else none

/-- Embedding of `uri.strip_prefix("file://").unwrap_or(uri)`
(`src/lsp/mod.rs:340`). -/
def stripFileScheme (uri : String) : String :=
  match dropStart "file://".data uri.data with
  | some rest => ⟨rest⟩
  | none => uri

/-! ## Diagnostic injection
(`LspProxy::inject_diagnostics_static`, `src/lsp/mod.rs:330-361`) -/

/-- Embedding of `LspProxy::inject_diagnostics_static`: mutates the
message in place in Rust; here the updated message is returned. -/
def inject_diagnostics_static (cache : Cache) (message : JsonValue) : JsonValue :=
  match (message.getField "method").bind JsonValue.asStr with
  | some m =>
    if m = "textDocument/publishDiagnostics" then
      match message.getField "params" with
      | some params =>
        match (params.getField "uri").bind JsonValue.asStr with
        | some uri =>
          let file_path := stripFileScheme uri
          match Cache.get cache file_path with
          | some our_diagnostics =>
            match params.getField "diagnostics" with
            | some (.arr diags) =>
                message.setField "params"
                  (params.setField "diagnostics"
                    (.arr (diags ++ our_diagnostics.map diagnostic_to_lsp)))
            | _ => message
          | none => message
        | none => message
      | none => message
    else message
  | none => message

/-! ## The event loop, one message at a time
(`LspProxy::run`, `src/lsp/mod.rs:229-288`)

The `tokio::select!` loop is embedded as two step functions, one per
branch.  Each step receives the raw payload string together with the
result of `serde_json::from_str` on it (the behaviour of the branch
depends only on that parse result), and returns the writes performed. -/

/-- A write performed by the loop: either the raw payload string
forwarded verbatim, or a re-serialized JSON message. -/
inductive WireOut where
  | raw (s : String)
  | json (j : JsonValue)

/-- Mutable state of the event loop: the `initialized` flag and, for
bookkeeping of claim C3, how many workspace scans have been dispatched
via `tokio::spawn`. -/
structure ProxySt where
  initialized : Bool
  scans : Nat

/-- Embedding of the client→server branch (`src/lsp/mod.rs:232-246`):
on parse success the original payload is forwarded to the child's
stdin; on parse failure the branch has no else-arm, so nothing is
written. -/
def clientStep (content : String) (parsed : Option JsonValue) : List WireOut :=
  match parsed with
  | some _ => [.raw content]
  | none => []

/-- Whether a parsed server-origin message carries method `initialized`
(the test `method == "initialized"` at `src/lsp/mod.rs:254`). -/
def isInitializedMsg (p : Option JsonValue) : Bool :=
  match p with
  | some msg => (msg.getField "method").bind JsonValue.asStr = some "initialized"
  | none => false

/-- Embedding of the server→client branch (`src/lsp/mod.rs:249-281`):
on parse success, the `initialized` method (when the flag is not yet
set) flips the flag and dispatches the background scan, then the
message passes through diagnostic injection and is re-serialized; on
parse failure the payload is forwarded verbatim. -/
def serverStep (cache : Cache) (st : ProxySt) (content : String)
    (parsed : Option JsonValue) : ProxySt × List WireOut :=
  match parsed with
  | some msg =>
      let st' :=
        if isInitializedMsg (some msg) && !st.initialized then
          { initialized := true, scans := st.scans + 1 }
        else st
      (st', [.json (inject_diagnostics_static cache msg)])
  | none => (st, [.raw content])

/-- Run the server→client branch over a whole session's list of
(payload, parse result) pairs, starting from the given state. -/
def runServerFrom (cache : Cache) (st : ProxySt) :
    List (String × Option JsonValue) → ProxySt
  | [] => st
  | (c, p) :: rest => runServerFrom cache (serverStep cache st c p).1 rest

/-- A fresh session starts with `initialized = false` and no scan
dispatched (`let mut initialized = false;`, `src/lsp/mod.rs:222`). -/
def runServer (cache : Cache) (msgs : List (String × Option JsonValue)) : ProxySt :=
  runServerFrom cache { initialized := false, scans := 0 } msgs

/-! ## A canonical `textDocument/publishDiagnostics` message shape
(the envelope consumed by `inject_diagnostics_static`) -/

/-- A publish-diagnostics notification with the given `uri` and
`diagnostics` array, in the shape the wrapped server emits. -/
def mkPublish (uri : String) (diags : List JsonValue) : JsonValue :=
  .obj [
    ("jsonrpc", .str "2.0"),
    ("method", .str "textDocument/publishDiagnostics"),
    ("params", .obj [
      ("uri", .str uri),
      ("diagnostics", .arr diags)])]

/-! ## Helper lemmas about injection and URI stripping -/

theorem dropStart_self_append {α : Type} [DecidableEq α] (pre rest : List α) :
    dropStart pre (pre ++ rest) = some rest := by
  induction pre with
  | nil => rfl
  | cons p ps ih => simp [dropStart, ih]

theorem stripFileScheme_append (s : String) :
    stripFileScheme ("file://" ++ s) = s := by
  show (match dropStart "file://".data ("file://" ++ s).data with
        | some rest => String.mk rest
        | none => "file://" ++ s) = s
  rw [String.data_append, dropStart_self_append]

theorem inject_mkPublish (cache : Cache) (uri : String) (ds : List JsonValue) :
    inject_diagnostics_static cache (mkPublish uri ds) =
      mkPublish uri
        (ds ++ ((Cache.get cache (stripFileScheme uri)).getD []).map diagnostic_to_lsp) := by
  show (match Cache.get cache (stripFileScheme uri) with
        | some our_diagnostics =>
            (mkPublish uri ds).setField "params"
              ((JsonValue.obj [("uri", .str uri), ("diagnostics", .arr ds)]).setField
                "diagnostics" (.arr (ds ++ our_diagnostics.map diagnostic_to_lsp)))
        | none => mkPublish uri ds) = _
  cases h : Cache.get cache (stripFileScheme uri) with
  | none => simp [mkPublish]
  | some l =>
      simp [JsonValue.setField, JsonValue.setField.assocSet, mkPublish]

/-! ## Example fixtures for concrete scenarios -/

/-- A cached diagnostic at 1-indexed line 10, column 5, severity
Warning, for the file `/ws/a.dart` (the scenario of claim C2). -/
def exC2Diag : Diagnostic :=
  { rule_id := "avoid_print"
    message := "Avoid print statements"
    severity := .warning
    category := .style
    location := { file := "/ws/a.dart", line := 10, column := 5,
                  end_line := none, end_column := none }
    suggestion := none }

/-- A cache holding exactly `exC2Diag` under the key `/ws/a.dart`. -/
def exC2Cache : Cache := [("/ws/a.dart", [exC2Diag])]

/-- A minimal parsed message whose method is `initialized`. -/
def exInitMsg : JsonValue :=
  .obj [("jsonrpc", .str "2.0"), ("method", .str "initialized")]

/-! ## C1 — passthrough of unparsable payloads -/

/-- Claim C1 (counterexample): the claim states that a client-origin
frame whose payload fails to parse as JSON is forwarded byte-for-byte
to the child's stdin.  At the concrete malformed payload `"@not-json@"`
the client→server branch writes nothing at all (the parse-failure case
has no else-arm in `src/lsp/mod.rs:234-245`), so the payload is dropped,
not forwarded. -/
theorem c1_counterexample_client_drop :
    clientStep "@not-json@" none = []
      ∧ clientStep "@not-json@" none ≠ [WireOut.raw "@not-json@"] :=
  ⟨rfl, by simp [clientStep]⟩

/-- Claim C1 (amended): a server-origin frame whose payload fails to
parse is forwarded byte-for-byte unchanged to the client's stdout with
no error and no state change; a client-origin frame whose payload fails
to parse is silently dropped — nothing is written to the child's stdin
and no error is raised. -/
theorem c1_passthrough_amended :
    (∀ (cache : Cache) (st : ProxySt) (content : String),
        serverStep cache st content none = (st, [WireOut.raw content]))
      ∧ (∀ content : String, clientStep content none = []) :=
  ⟨fun _ _ _ => rfl, fun _ => rfl⟩

/-! ## C3 — at-most-once workspace scan dispatch -/

theorem serverStep_fst (cache : Cache) (st : ProxySt) (c : String)
    (p : Option JsonValue) :
    (serverStep cache st c p).1 =
      if isInitializedMsg p && !st.initialized then
        { initialized := true, scans := st.scans + 1 }
      else st := by
  cases p with
  | none => simp [serverStep, isInitializedMsg]
  | some msg => rfl

theorem runServerFrom_scans (cache : Cache)
    (msgs : List (String × Option JsonValue)) :
    ∀ st : ProxySt,
      (runServerFrom cache st msgs).scans =
        st.scans +
          (if !st.initialized && msgs.any (fun m => isInitializedMsg m.2)
           then 1 else 0) := by
  induction msgs with
  | nil => intro st; simp [runServerFrom]
  | cons hd tl ih =>
      intro st
      rcases hd with ⟨c, p⟩
      rcases st with ⟨sinit, sscans⟩
      show (runServerFrom cache (serverStep cache ⟨sinit, sscans⟩ c p).1 tl).scans = _
      rw [serverStep_fst, ih]
      simp only [List.any_cons]
      rcases Bool.eq_false_or_eq_true (isInitializedMsg p) with hb | hb <;>
        rcases Bool.eq_false_or_eq_true sinit with hs | hs <;>
          simp only [hb, hs] <;> rfl

/-- Claim C3: in any session (any list of server-origin payloads with
their parse results), the number of workspace scans dispatched is 1 if
some message carries method `initialized` and 0 otherwise — in
particular never more than one — and delivering the `initialized`
notification twice dispatches exactly one scan. -/
theorem c3_at_most_once_scan :
    (∀ (cache : Cache) (msgs : List (String × Option JsonValue)),
        (runServer cache msgs).scans =
          if msgs.any (fun m => isInitializedMsg m.2) then 1 else 0)
      ∧ (runServer [] [("m", some exInitMsg), ("m", some exInitMsg)]).scans = 1 := by
  constructor
  · intro cache msgs
    rw [runServer, runServerFrom_scans]
    cases hb : msgs.any (fun m => isInitializedMsg m.2) <;> rfl
  · rfl

/-! ## C2 — merge appends converted cached diagnostics -/

/-- Claim C2: when a `textDocument/publishDiagnostics` message arrives
whose (scheme-stripped) uri has cached diagnostics, the cached entries
are appended after the message's pre-existing diagnostics, which are
preserved in order; conversion maps severity Error→1, Warning→2,
Info→3 and decrements 1-indexed line/column to 0-indexed; and the
concrete scenario — cached diagnostic at line 10, column 5, severity
Warning merged into a matching publish message with an empty
diagnostics array — yields exactly one entry with start.line 9,
start.character 4, severity 2. -/
theorem c2_merge_appends_converted :
    (∀ (cache : Cache) (uri : String) (ds : List JsonValue)
        (cached : List Diagnostic),
        Cache.get cache (stripFileScheme uri) = some cached →
        inject_diagnostics_static cache (mkPublish uri ds) =
          mkPublish uri (ds ++ cached.map diagnostic_to_lsp))
      ∧ (severityToLsp .error = 1 ∧ severityToLsp .warning = 2
          ∧ severityToLsp .info = 3)
      ∧ (∀ d : Diagnostic,
          (diagnostic_to_lsp d).getField "severity"
              = some (.num (severityToLsp d.severity))
            ∧ ((diagnostic_to_lsp d).getField "range").bind
                (fun r => (r.getField "start").bind (fun s => s.getField "line"))
              = some (.num (d.location.line - 1))
            ∧ ((diagnostic_to_lsp d).getField "range").bind
                (fun r => (r.getField "start").bind (fun s => s.getField "character"))
              = some (.num (d.location.column - 1)))
      ∧ inject_diagnostics_static exC2Cache (mkPublish "file:///ws/a.dart" []) =
          mkPublish "file:///ws/a.dart"
            [JsonValue.obj [
              ("range", .obj [
                ("start", .obj [("line", .num 9), ("character", .num 4)]),
                ("end", .obj [("line", .num 9), ("character", .num 5)])]),
              ("severity", .num 2),
              ("code", .str "avoid_print"),
              ("source", .str "dart-re-analyzer"),
              ("message", .str "Avoid print statements")]] := by
  refine ⟨?_, ⟨rfl, rfl, rfl⟩, ?_, ?_⟩
  · intro cache uri ds cached h
    rw [inject_mkPublish, h]
    rfl
  · intro d
    exact ⟨rfl, rfl, rfl⟩
  · rfl

/-- Witness for C2: the general merge statement applied at the concrete
scenario cache and message. -/
theorem c2_merge_appends_converted_witness :
    inject_diagnostics_static exC2Cache
        (mkPublish "file:///ws/a.dart" [JsonValue.null]) =
      mkPublish "file:///ws/a.dart"
        ([JsonValue.null] ++ [exC2Diag].map diagnostic_to_lsp) :=
  c2_merge_appends_converted.1 exC2Cache "file:///ws/a.dart"
    [JsonValue.null] [exC2Diag] rfl

/-! ## C7 — injection happens exactly on raw-string key match -/

/-- Claim C7: injection into a publish message appends exactly the
cached diagnostics stored under the key equal — by raw string equality
— to the message's uri after stripping a leading `file://`; when the
lookup misses (trailing slash, case difference, or any other mismatch)
the message is returned unchanged. -/
theorem c7_exact_path_match :
    (∀ (cache : Cache) (uri : String) (ds : List JsonValue),
        inject_diagnostics_static cache (mkPublish uri ds) =
          mkPublish uri
            (ds ++ ((Cache.get cache (stripFileScheme uri)).getD []).map
              diagnostic_to_lsp))
      ∧ (∀ s : String, stripFileScheme ("file://" ++ s) = s)
      ∧ (∀ (cache : Cache) (uri : String) (ds : List JsonValue),
          Cache.get cache (stripFileScheme uri) = none →
          inject_diagnostics_static cache (mkPublish uri ds) = mkPublish uri ds)
      ∧ inject_diagnostics_static exC2Cache (mkPublish "file:///ws/a.dart/" []) =
          mkPublish "file:///ws/a.dart/" []
      ∧ inject_diagnostics_static exC2Cache (mkPublish "file:///ws/A.dart" []) =
          mkPublish "file:///ws/A.dart" [] := by
  refine ⟨inject_mkPublish, stripFileScheme_append, ?_, rfl, rfl⟩
  intro cache uri ds h
  rw [inject_mkPublish, h]
  simp

/-- Witness for C7: a lookup miss at a concrete non-matching uri leaves
the concrete message unchanged. -/
theorem c7_exact_path_match_witness :
    inject_diagnostics_static exC2Cache
        (mkPublish "file:///ws/other.dart" [JsonValue.null]) =
      mkPublish "file:///ws/other.dart" [JsonValue.null] :=
  c7_exact_path_match.2.2.1 exC2Cache "file:///ws/other.dart"
    [JsonValue.null] rfl

/-! ## Workspace scanning
(`parser::find_dart_files`, `src/parser/mod.rs:26-53`, and
`LspProxy::analyze_workspace_static`, `src/lsp/mod.rs:294-327`) -/

/-- Whether `pat` occurs at the start of `l`. -/
def startsWithSeq {α : Type} [DecidableEq α] (pat l : List α) : Bool :=
  (dropStart pat l).isSome

/-- Whether `pat` occurs contiguously anywhere in the second list
(embeds `str::contains` with a literal pattern). -/
def containsSeq {α : Type} [DecidableEq α] (pat : List α) : List α → Bool
  | [] => pat.isEmpty
  | x :: xs => startsWithSeq pat (x :: xs) || containsSeq pat xs

/-- `str::contains` on strings. -/
def strContainsSub (s pat : String) : Bool :=
  containsSeq pat.data s.data

/-- A file-system entry as `walkdir` yields it.  `ext` carries the
result of `Path::extension` (already as text), `isFile` the result of
`Path::is_file`, and `content` the result of `fs::read_to_string` —
`Except.error` models an unreadable file. -/
structure FsEntry where
  path : String
  ext : Option String
  isFile : Bool
  content : Except Unit String

/-- Embedding of `parser::is_dart_file` (`src/parser/mod.rs:19-24`):
`path.extension().and_then(to_str).map(|e| e == "dart").unwrap_or(false)`. -/
def is_dart_file (ext : Option String) : Bool :=
  (ext.map (· == "dart")).getD false

/-- The excluded-directory test of `find_dart_files`
(`src/parser/mod.rs:39-45`). -/
def excludedPath (p : String) : Bool :=
  strContainsSub p "/.dart_tool/" || strContainsSub p "/build/"
    || strContainsSub p "/.pub/" || strContainsSub p "/packages/"

/-- Embedding of `parser::find_dart_files` (`src/parser/mod.rs:26-53`).
The walk order is the entry-list order; `DartFile::load(path)?`
propagates a read error, aborting the whole enumeration. -/
def find_dart_files : List FsEntry → Except Unit (List (String × String))
  | [] => .ok []
  | e :: rest =>
      if e.isFile && is_dart_file e.ext then
        if excludedPath e.path then find_dart_files rest
        else
          match e.content with
          | .error u => .error u
          | .ok c =>
              match find_dart_files rest with
              | .error u => .error u
              | .ok files => .ok ((e.path, c) :: files)
      else find_dart_files rest

/-- A rule's `check(path, content)` capability (`Rule::check`), which
may fail (`anyhow::Result`). -/
def RuleFn := String → String → Except Unit (List Diagnostic)

/-- Per-file diagnostics collection: the inner rule loop of
`analyze_workspace_static` (`src/lsp/mod.rs:311-315`); an erroring rule
contributes nothing (`if let Ok(diags)`). -/
def analyzeFileDiags (rules : List RuleFn) (path content : String) : List Diagnostic :=
  match rules with
  | [] => []
  | r :: rest =>
      (match r path content with
       | .ok diags => diags
       | .error _ => []) ++ analyzeFileDiags rest path content

/-- The per-file loop of `analyze_workspace_static`
(`src/lsp/mod.rs:307-320`): files with an empty diagnostics list are
not inserted. -/
def scanFiles (rules : List RuleFn) : List (String × String) → Cache → Cache
  | [], m => m
  | (p, c) :: rest, m =>
      let ds := analyzeFileDiags rules p c
      scanFiles rules rest (if ds.isEmpty then m else m.insert p ds)

/-- Embedding of `LspProxy::analyze_workspace_static`
(`src/lsp/mod.rs:294-327`): enumeration runs first and its error is
propagated by `?` before the cache lock is taken; only on success is
the cache cleared (`cache_lock.clear()`) and repopulated.  Returns the
function's result together with the cache state afterwards. -/
def analyze_workspace_static (entries : List FsEntry) (rules : List RuleFn)
    (cache : Cache) : Except Unit Unit × Cache :=
  match find_dart_files entries with
  | .error e => (.error e, cache)
  | .ok files => (.ok (), scanFiles rules files [])

/-! ## Cache lemmas -/

theorem Cache.get_insert_self (m : Cache) (k : String) (v : List Diagnostic) :
    (m.insert k v).get k = some v := by
  induction m with
  | nil => simp [Cache.insert, Cache.get]
  | cons hd tl ih =>
      rcases hd with ⟨k', v'⟩
      by_cases h : k' = k
      · simp [Cache.insert, Cache.get, h]
      · simp [Cache.insert, Cache.get, h, ih]

theorem Cache.get_insert_other (m : Cache) (k k' : String) (v : List Diagnostic)
    (h : k' ≠ k) : (m.insert k v).get k' = m.get k' := by
  induction m with
  | nil => simp [Cache.insert, Cache.get, Ne.symm h]
  | cons hd tl ih =>
      rcases hd with ⟨k₀, v₀⟩
      by_cases h₀ : k₀ = k
      · subst h₀
        simp [Cache.insert, Cache.get, Ne.symm h]
      · simp only [Cache.insert, if_neg h₀, Cache.get]
        by_cases h₁ : k₀ = k'
        · simp [h₁]
        · simp [h₁, ih]

theorem scanFiles_get_not_mem (rules : List RuleFn)
    (files : List (String × String)) (p : String)
    (h : ∀ f ∈ files, f.1 ≠ p) :
    ∀ m : Cache, (scanFiles rules files m).get p = m.get p := by
  induction files with
  | nil => intro m; rfl
  | cons hd tl ih =>
      intro m
      rcases hd with ⟨q, d⟩
      have hq : q ≠ p := h (q, d) (by simp)
      show (scanFiles rules tl _).get p = _
      rw [ih (fun f hf => h f (List.mem_cons_of_mem _ hf))]
      by_cases he : (analyzeFileDiags rules q d).isEmpty
      · simp [he]
      · simp [he, Cache.get_insert_other _ _ _ _ (Ne.symm hq)]

theorem scanFiles_get_mem (rules : List RuleFn) :
    ∀ (files : List (String × String)) (m : Cache) (p c : String),
      (files.map Prod.fst).Nodup → (p, c) ∈ files →
      (scanFiles rules files m).get p =
        (if (analyzeFileDiags rules p c).isEmpty then m.get p
         else some (analyzeFileDiags rules p c)) := by
  intro files
  induction files with
  | nil => intro m p c _ hmem; cases hmem
  | cons hd tl ih =>
      intro m p c hnodup hmem
      rcases hd with ⟨q, d⟩
      rw [List.map_cons] at hnodup
      obtain ⟨hnotin, hnodup'⟩ := List.nodup_cons.mp hnodup
      rcases List.mem_cons.mp hmem with heq | htl
      · injection heq with hp hc
        subst hp
        subst hc
        have hrest : ∀ f ∈ tl, f.1 ≠ p := by
          intro f hf hfp
          have hm : f.1 ∈ tl.map Prod.fst := List.mem_map_of_mem Prod.fst hf
          rw [hfp] at hm
          exact hnotin hm
        show (scanFiles rules tl _).get p = _
        rw [scanFiles_get_not_mem rules tl p hrest]
        by_cases he : (analyzeFileDiags rules p c).isEmpty
        · simp [he]
        · simp [he, Cache.get_insert_self]
      · have hq : q ≠ p := by
          intro hqp
          subst hqp
          have hm : Prod.fst (q, c) ∈ tl.map Prod.fst :=
            List.mem_map_of_mem Prod.fst htl
          exact hnotin hm
        show (scanFiles rules tl _).get p = _
        rw [ih _ p c hnodup' htl]
        by_cases he' : (analyzeFileDiags rules q d).isEmpty
        · simp [he']
        · simp [he', Cache.get_insert_other _ _ _ _ (Ne.symm hq)]

/-! ## Scanner fixtures -/

/-- A rule that always fails (a collaborator behaviour, not repo code). -/
def exRuleFail : RuleFn := fun _ _ => .error ()

/-- The diagnostic produced by the example rule below. -/
def exPrintDiag (path : String) : Diagnostic :=
  { rule_id := "avoid_print"
    message := "Avoid print statements"
    severity := .warning
    category := .style
    location := { file := path, line := 1, column := 1,
                  end_line := none, end_column := none }
    suggestion := none }

/-- An example rule flagging files whose content contains `print(`
(a stand-in for the external rule engine). -/
def exRulePrint : RuleFn := fun path content =>
  .ok (if strContainsSub content "print(" then [exPrintDiag path] else [])

/-- An unreadable `.dart` file. -/
def exBadEntry : FsEntry :=
  { path := "/ws/bad.dart", ext := some "dart", isFile := true,
    content := .error () }

/-- A readable `.dart` file that the example rule would flag. -/
def exGoodEntry : FsEntry :=
  { path := "/ws/good.dart", ext := some "dart", isFile := true,
    content := .ok "print(x);" }

/-- A readable `.dart` file with a rule violation. -/
def exViolEntry : FsEntry :=
  { path := "/ws/viol.dart", ext := some "dart", isFile := true,
    content := .ok "print(x);" }

/-- A readable, clean `.dart` file. -/
def exCleanEntry : FsEntry :=
  { path := "/ws/clean.dart", ext := some "dart", isFile := true,
    content := .ok "var a = 1;" }

/-- Shared fact: when enumeration fails, `analyze_workspace_static`
returns the error and the cache is untouched (the `?` on
`find_dart_files` fires before `cache_lock.clear()`). -/
theorem analyze_workspace_error (entries : List FsEntry) (rules : List RuleFn)
    (cache : Cache) (e : Unit) (h : find_dart_files entries = .error e) :
    analyze_workspace_static entries rules cache = (.error e, cache) := by
  unfold analyze_workspace_static
  rw [h]

/-! ## C6 — failure tolerance during the scan -/

/-- Claim C6 (counterexample): the claim states a single unreadable
file does not block analysis of the remaining files.  With the
unreadable `/ws/bad.dart` listed before the readable, rule-violating
`/ws/good.dart`, the whole scan aborts with an error and the cache
receives no entry at all — even though the good file on its own would
have produced a diagnostic. -/
theorem c6_counterexample_unreadable_file_aborts :
    analyze_workspace_static [exBadEntry, exGoodEntry] [exRulePrint] [] =
        (.error (), ([] : Cache))
      ∧ analyzeFileDiags [exRulePrint] "/ws/good.dart" "print(x);" ≠ [] :=
  ⟨rfl, by decide⟩

/-- Claim C6 (amended): a rule invocation that returns an error
contributes zero diagnostics for that rule on that file and does not
abort the scan; but an unreadable file aborts the entire enumeration —
`DartFile::load(path)?` propagates the read error — so the scan
returns the error and the cache keeps its previous contents, receiving
results for no file at all. -/
theorem c6_rule_failure_tolerated_amended :
    (∀ (pre suf : List RuleFn) (r : RuleFn) (path content : String) (e : Unit),
        r path content = .error e →
        analyzeFileDiags (pre ++ r :: suf) path content =
          analyzeFileDiags (pre ++ suf) path content)
      ∧ (∀ (entries : List FsEntry) (rules : List RuleFn) (cache : Cache) (e : Unit),
          find_dart_files entries = .error e →
          analyze_workspace_static entries rules cache = (.error e, cache)) := by
  constructor
  · intro pre suf r path content e h
    induction pre with
    | nil => simp [analyzeFileDiags, h]
    | cons q qre ih => simp [analyzeFileDiags, ih]
  · exact analyze_workspace_error

/-- Witness for C6 (amended): a concrete failing rule in the middle of
a rule list contributes nothing. -/
theorem c6_rule_failure_tolerated_amended_witness :
    analyzeFileDiags ([] ++ exRuleFail :: [exRulePrint]) "p.dart" "print(x);" =
      analyzeFileDiags ([] ++ [exRulePrint]) "p.dart" "print(x);" :=
  c6_rule_failure_tolerated_amended.1 [] [exRulePrint] exRuleFail
    "p.dart" "print(x);" () rfl

/-! ## C8 — the cache after a scan is exactly the sparse result map -/

/-- Claim C8: after a scan, a file's entry in the (freshly cleared)
cache is exactly its collected diagnostics when those are non-empty and
absent when they are empty; paths not scanned are absent; and the
concrete two-file scenario (one violating file, one clean) leaves
exactly one entry keyed by the violating file's path with one
diagnostic. -/
theorem c8_sparse_cache_after_scan :
    (∀ (rules : List RuleFn) (files : List (String × String)) (p c : String),
        (files.map Prod.fst).Nodup → (p, c) ∈ files →
        (scanFiles rules files []).get p =
          (if (analyzeFileDiags rules p c).isEmpty then none
           else some (analyzeFileDiags rules p c)))
      ∧ (∀ (rules : List RuleFn) (files : List (String × String)) (p : String),
          (∀ f ∈ files, f.1 ≠ p) → (scanFiles rules files []).get p = none)
      ∧ analyze_workspace_static [exViolEntry, exCleanEntry] [exRulePrint]
            [("stale", [exC2Diag])] =
          (.ok (), [("/ws/viol.dart", [exPrintDiag "/ws/viol.dart"])]) := by
  refine ⟨?_, ?_, rfl⟩
  · intro rules files p c hnd hmem
    rw [scanFiles_get_mem rules files [] p c hnd hmem]
    rfl
  · intro rules files p h
    rw [scanFiles_get_not_mem rules files p h]
    rfl

/-- Witness for C8: the sparse characterization at a concrete
one-file scan. -/
theorem c8_sparse_cache_after_scan_witness :
    (scanFiles [exRulePrint] [("a.dart", "print(x);")] []).get "a.dart" =
      (if (analyzeFileDiags [exRulePrint] "a.dart" "print(x);").isEmpty then none
       else some (analyzeFileDiags [exRulePrint] "a.dart" "print(x);")) :=
  c8_sparse_cache_after_scan.1 [exRulePrint] [("a.dart", "print(x);")]
    "a.dart" "print(x);" (by simp) (by simp)

/-! ## C10 — a failed enumeration leaves the cache unchanged -/

/-- Claim C10: if source-file enumeration fails, the scan returns the
error with the cache exactly as it was; and on success the resulting
cache is independent of the prior cache contents (it is cleared and
repopulated only after enumeration succeeded). -/
theorem c10_failed_enumeration_preserves_cache :
    (∀ (entries : List FsEntry) (rules : List RuleFn) (cache : Cache) (e : Unit),
        find_dart_files entries = .error e →
        analyze_workspace_static entries rules cache = (.error e, cache))
      ∧ (∀ (entries : List FsEntry) (rules : List RuleFn) (c₁ c₂ : Cache)
          (files : List (String × String)),
          find_dart_files entries = .ok files →
          (analyze_workspace_static entries rules c₁).2 =
            (analyze_workspace_static entries rules c₂).2) := by
  constructor
  · exact analyze_workspace_error
  · intro entries rules c₁ c₂ files h
    unfold analyze_workspace_static
    rw [h]

/-- Witness for C10: a concrete unreadable entry makes the scan fail
and the stale cache survives verbatim. -/
theorem c10_failed_enumeration_preserves_cache_witness :
    analyze_workspace_static [exBadEntry] [exRulePrint] [("stale", [exC2Diag])] =
      (.error (), [("stale", [exC2Diag])]) :=
  c10_failed_enumeration_preserves_cache.1 [exBadEntry] [exRulePrint]
    [("stale", [exC2Diag])] () rfl

/-! ## The message framer
(`LspProxy::read_message` / `write_message`, `src/lsp/mod.rs:92-138`)

Byte streams are lists of byte values.  UTF-8 encoding/decoding is
embedded with explicit arithmetic (`/`, `%`, `+`), which on these
non-overlapping bit ranges coincides with the shift-and-mask
formulation of the UTF-8 specification used by Rust's `String`
conversions. -/

/-- UTF-8 encoding of a single code point. -/
def encodeChar (n : Nat) : List Nat :=
  if n < 0x80 then [n]
  else if n < 0x800 then [0xC0 + n / 0x40, 0x80 + n % 0x40]
  else if n < 0x10000 then
    [0xE0 + n / 0x1000, 0x80 + n / 0x40 % 0x40, 0x80 + n % 0x40]
  else
    [0xF0 + n / 0x40000, 0x80 + n / 0x1000 % 0x40,
     0x80 + n / 0x40 % 0x40, 0x80 + n % 0x40]

/-- UTF-8 encoding of a string (Rust `str::as_bytes`; also the byte
count behind `String::len`). -/
def utf8Encode (s : String) : List Nat :=
  s.data.flatMap (fun c => encodeChar c.toNat)

/-- A UTF-8 continuation byte. -/
def isCont (b : Nat) : Bool :=
  decide (0x80 ≤ b) && decide (b < 0xC0)

/-- Code point assembled from a 2-byte sequence. -/
def cp2 (b b1 : Nat) : Nat := (b - 0xC0) * 0x40 + (b1 - 0x80)

/-- Code point assembled from a 3-byte sequence. -/
def cp3 (b b1 b2 : Nat) : Nat :=
  (b - 0xE0) * 0x1000 + (b1 - 0x80) * 0x40 + (b2 - 0x80)

/-- Code point assembled from a 4-byte sequence. -/
def cp4 (b b1 b2 b3 : Nat) : Nat :=
  (b - 0xF0) * 0x40000 + (b1 - 0x80) * 0x1000 + (b2 - 0x80) * 0x40 + (b3 - 0x80)

/-- Validity of a 2-byte code point (rejects overlong forms). -/
def ok2 (n : Nat) : Bool := decide (0x80 ≤ n)

/-- Validity of a 3-byte code point (rejects overlong forms and
surrogates). -/
def ok3 (n : Nat) : Bool :=
  decide (0x800 ≤ n) && !(decide (0xD800 ≤ n) && decide (n < 0xE000))

/-- Validity of a 4-byte code point (rejects overlong and
out-of-range forms). -/
def ok4 (n : Nat) : Bool :=
  decide (0x10000 ≤ n) && decide (n < 0x110000)

/-- Decode one UTF-8 sequence: first byte plus following bytes, giving
the code point and the remaining bytes.  Rejects stray or missing
continuation bytes, overlong forms, surrogates and out-of-range code
points, exactly as Rust's `String::from_utf8` does. -/
def decodeOneChar : Nat → List Nat → Option (Nat × List Nat) := fun b rest =>
  if b < 0x80 then some (b, rest)
  else if b < 0xC0 then none
  else if b < 0xE0 then
    match rest with
    | b1 :: r =>
        if isCont b1 && ok2 (cp2 b b1) then some (cp2 b b1, r) else none
    | [] => none
  else if b < 0xF0 then
    match rest with
    | b1 :: b2 :: r =>
        if isCont b1 && isCont b2 && ok3 (cp3 b b1 b2) then
          some (cp3 b b1 b2, r)
        else none
    | _ => none
  else if b < 0xF8 then
    match rest with
    | b1 :: b2 :: b3 :: r =>
        if isCont b1 && isCont b2 && isCont b3 && ok4 (cp4 b b1 b2 b3) then
          some (cp4 b b1 b2 b3, r)
        else none
    | _ => none
  else none

/-- The decode loop, structurally recursive on a fuel that bounds the
number of characters; one byte is consumed per character, so the input
length is always enough fuel. -/
def utf8DecodeLoop : Nat → List Nat → Option (List Nat)
  | _, [] => some []
  | 0, _ :: _ => none
  | fuel + 1, b :: rest =>
      match decodeOneChar b rest with
      | some (n, r) => (utf8DecodeLoop fuel r).map (fun ns => n :: ns)
      | none => none

/-- Strict UTF-8 decoding of a byte list to code points. -/
def utf8DecodeCodes (l : List Nat) : Option (List Nat) :=
  utf8DecodeLoop l.length l

/-- String-level UTF-8 decoding (`String::from_utf8`). -/
def utf8DecodeStr (bs : List Nat) : Option String :=
  (utf8DecodeCodes bs).map (fun ns => ⟨ns.map Char.ofNat⟩)

set_option maxRecDepth 8000 in
theorem decodeOneChar_length (b : Nat) (rest : List Nat) (n : Nat)
    (r : List Nat) (h : decodeOneChar b rest = some (n, r)) :
    r.length ≤ rest.length := by
  simp only [decodeOneChar] at h
  split at h
  · cases h
    exact Nat.le_refl _
  · split at h
    · cases h
    · split at h
      · split at h
        · split at h
          · cases h
            simp only [List.length_cons]
            omega
          · cases h
        · cases h
      · split at h
        · split at h
          · split at h
            · cases h
              simp only [List.length_cons]
              omega
            · cases h
          · cases h
        · split at h
          · split at h
            · split at h
              · cases h
                simp only [List.length_cons]
                omega
              · cases h
            · cases h
          · cases h

theorem utf8DecodeLoop_fuel :
    ∀ (f₁ f₂ : Nat) (l : List Nat), l.length ≤ f₁ → l.length ≤ f₂ →
      utf8DecodeLoop f₁ l = utf8DecodeLoop f₂ l := by
  intro f₁
  induction f₁ with
  | zero =>
      intro f₂ l h₁ _
      have : l = [] := List.length_eq_zero.mp (Nat.le_zero.mp h₁)
      subst this
      cases f₂ <;> rfl
  | succ g₁ ih =>
      intro f₂ l h₁ h₂
      cases l with
      | nil => cases f₂ <;> rfl
      | cons b rest =>
          cases f₂ with
          | zero => exact absurd h₂ (by simp)
          | succ g₂ =>
              show (match decodeOneChar b rest with
                    | some (n, r) => (utf8DecodeLoop g₁ r).map (fun ns => n :: ns)
                    | none => none) =
                  (match decodeOneChar b rest with
                    | some (n, r) => (utf8DecodeLoop g₂ r).map (fun ns => n :: ns)
                    | none => none)
              cases hd : decodeOneChar b rest with
              | none => rfl
              | some pr =>
                  rcases pr with ⟨n, r⟩
                  have hlen := decodeOneChar_length b rest n r hd
                  have hr₁ : r.length ≤ g₁ := by
                    simp at h₁
                    omega
                  have hr₂ : r.length ≤ g₂ := by
                    simp at h₂
                    omega
                  simp only [ih g₂ r hr₁ hr₂]

theorem utf8DecodeCodes_cons (b : Nat) (rest : List Nat) :
    utf8DecodeCodes (b :: rest) =
      match decodeOneChar b rest with
      | some (n, r) => (utf8DecodeCodes r).map (fun ns => n :: ns)
      | none => none := by
  show utf8DecodeLoop (rest.length + 1) (b :: rest) = _
  show (match decodeOneChar b rest with
        | some (n, r) => (utf8DecodeLoop rest.length r).map (fun ns => n :: ns)
        | none => none) = _
  cases hd : decodeOneChar b rest with
  | none => rfl
  | some pr =>
      rcases pr with ⟨n, r⟩
      have hlen := decodeOneChar_length b rest n r hd
      simp only [utf8DecodeLoop_fuel rest.length r.length r hlen (Nat.le_refl _)]
      rfl

theorem utf8DecodeCodes_one (b : Nat) (rest : List Nat) (hb : b < 0x80) :
    utf8DecodeCodes (b :: rest) =
      (utf8DecodeCodes rest).map (fun ns => b :: ns) := by
  rw [utf8DecodeCodes_cons]
  have hd : decodeOneChar b rest = some (b, rest) := by
    simp only [decodeOneChar]
    rw [if_pos hb]
  rw [hd]

theorem utf8DecodeCodes_two (b b1 : Nat) (rest : List Nat)
    (hb : 0xC2 ≤ b ∧ b < 0xE0) (hb1 : 0x80 ≤ b1 ∧ b1 < 0xC0) :
    utf8DecodeCodes (b :: b1 :: rest) =
      (utf8DecodeCodes rest).map (fun ns => cp2 b b1 :: ns) := by
  rw [utf8DecodeCodes_cons]
  have hd : decodeOneChar b (b1 :: rest) = some (cp2 b b1, rest) := by
    simp only [decodeOneChar]
    rw [if_neg (by omega), if_neg (by omega), if_pos (by omega)]
    have hc : (isCont b1 && ok2 (cp2 b b1)) = true := by
      simp only [isCont, ok2, cp2, Bool.and_eq_true, decide_eq_true_eq]
      omega
    rw [if_pos hc]
  rw [hd]

theorem utf8DecodeCodes_three (b b1 b2 : Nat) (rest : List Nat)
    (hb : 0xE0 ≤ b ∧ b < 0xF0) (hb1 : 0x80 ≤ b1 ∧ b1 < 0xC0)
    (hb2 : 0x80 ≤ b2 ∧ b2 < 0xC0)
    (hrange : 0x800 ≤ cp3 b b1 b2
      ∧ ¬(0xD800 ≤ cp3 b b1 b2 ∧ cp3 b b1 b2 < 0xE000)) :
    utf8DecodeCodes (b :: b1 :: b2 :: rest) =
      (utf8DecodeCodes rest).map (fun ns => cp3 b b1 b2 :: ns) := by
  rw [utf8DecodeCodes_cons]
  have hd : decodeOneChar b (b1 :: b2 :: rest) = some (cp3 b b1 b2, rest) := by
    simp only [decodeOneChar]
    rw [if_neg (by omega), if_neg (by omega), if_neg (by omega), if_pos (by omega)]
    have hc : (isCont b1 && isCont b2 && ok3 (cp3 b b1 b2)) = true := by
      simp only [isCont, ok3, Bool.and_eq_true, Bool.not_eq_true',
        Bool.and_eq_false_iff, decide_eq_true_eq, decide_eq_false_iff_not]
      omega
    rw [if_pos hc]
  rw [hd]

theorem utf8DecodeCodes_four (b b1 b2 b3 : Nat) (rest : List Nat)
    (hb : 0xF0 ≤ b ∧ b < 0xF8) (hb1 : 0x80 ≤ b1 ∧ b1 < 0xC0)
    (hb2 : 0x80 ≤ b2 ∧ b2 < 0xC0) (hb3 : 0x80 ≤ b3 ∧ b3 < 0xC0)
    (hrange : 0x10000 ≤ cp4 b b1 b2 b3 ∧ cp4 b b1 b2 b3 < 0x110000) :
    utf8DecodeCodes (b :: b1 :: b2 :: b3 :: rest) =
      (utf8DecodeCodes rest).map (fun ns => cp4 b b1 b2 b3 :: ns) := by
  rw [utf8DecodeCodes_cons]
  have hd : decodeOneChar b (b1 :: b2 :: b3 :: rest) = some (cp4 b b1 b2 b3, rest) := by
    simp only [decodeOneChar]
    rw [if_neg (by omega), if_neg (by omega), if_neg (by omega), if_neg (by omega),
      if_pos (by omega)]
    have hc : (isCont b1 && isCont b2 && isCont b3 && ok4 (cp4 b b1 b2 b3)) = true := by
      simp only [isCont, ok4, Bool.and_eq_true, decide_eq_true_eq]
      omega
    rw [if_pos hc]
  rw [hd]

theorem utf8DecodeCodes_encodeChar (c : Char) (rest : List Nat) :
    utf8DecodeCodes (encodeChar c.toNat ++ rest) =
      (utf8DecodeCodes rest).map (fun ns => c.toNat :: ns) := by
  have hval : c.toNat < 0xD800 ∨ (0xE000 ≤ c.toNat ∧ c.toNat < 0x110000) := by
    have h := c.valid
    rcases h with h | h
    · left; exact h
    · right; exact h
  set n := c.toNat with hn
  by_cases h1 : n < 0x80
  · have he : encodeChar n = [n] := by rw [encodeChar, if_pos h1]
    rw [he]
    exact utf8DecodeCodes_one n rest h1
  by_cases h2 : n < 0x800
  · have he : encodeChar n = [0xC0 + n / 0x40, 0x80 + n % 0x40] := by
      rw [encodeChar, if_neg h1, if_pos h2]
    rw [he]
    show utf8DecodeCodes ((0xC0 + n / 0x40) :: (0x80 + n % 0x40) :: rest) = _
    rw [utf8DecodeCodes_two _ _ rest (by omega) (by omega)]
    have hcp : cp2 (0xC0 + n / 0x40) (0x80 + n % 0x40) = n := by
      simp only [cp2]
      omega
    rw [hcp]
  by_cases h3 : n < 0x10000
  · have he : encodeChar n
        = [0xE0 + n / 0x1000, 0x80 + n / 0x40 % 0x40, 0x80 + n % 0x40] := by
      rw [encodeChar, if_neg h1, if_neg h2, if_pos h3]
    rw [he]
    show utf8DecodeCodes
        ((0xE0 + n / 0x1000) :: (0x80 + n / 0x40 % 0x40) :: (0x80 + n % 0x40) :: rest) = _
    have hcp : cp3 (0xE0 + n / 0x1000) (0x80 + n / 0x40 % 0x40) (0x80 + n % 0x40) = n := by
      simp only [cp3]
      omega
    rw [utf8DecodeCodes_three _ _ _ rest (by omega) (by omega) (by omega)
      (by rw [hcp]; omega), hcp]
  · have he : encodeChar n
        = [0xF0 + n / 0x40000, 0x80 + n / 0x1000 % 0x40,
           0x80 + n / 0x40 % 0x40, 0x80 + n % 0x40] := by
      rw [encodeChar, if_neg h1, if_neg h2, if_neg h3]
    rw [he]
    show utf8DecodeCodes
        ((0xF0 + n / 0x40000) :: (0x80 + n / 0x1000 % 0x40)
          :: (0x80 + n / 0x40 % 0x40) :: (0x80 + n % 0x40) :: rest) = _
    have hcp : cp4 (0xF0 + n / 0x40000) (0x80 + n / 0x1000 % 0x40)
        (0x80 + n / 0x40 % 0x40) (0x80 + n % 0x40) = n := by
      simp only [cp4]
      omega
    rw [utf8DecodeCodes_four _ _ _ _ rest (by omega) (by omega) (by omega) (by omega)
      (by rw [hcp]; omega), hcp]

theorem utf8DecodeCodes_flatMap (cs : List Char) :
    utf8DecodeCodes (cs.flatMap (fun c => encodeChar c.toNat)) =
      some (cs.map Char.toNat) := by
  induction cs with
  | nil => rfl
  | cons c cs ih =>
      rw [List.flatMap_cons, utf8DecodeCodes_encodeChar, ih]
      rfl

theorem utf8DecodeStr_utf8Encode (s : String) :
    utf8DecodeStr (utf8Encode s) = some s := by
  rw [utf8DecodeStr, utf8Encode, utf8DecodeCodes_flatMap]
  show some (String.mk ((s.data.map Char.toNat).map Char.ofNat)) = some s
  have hid : (s.data.map Char.toNat).map Char.ofNat = s.data := by
    induction s.data with
    | nil => rfl
    | cons c cs ih => simp [Char.ofNat_toNat, ih]
  rw [hid]

theorem utf8DecodeCodes_ascii (bs : List Nat) (h : ∀ b ∈ bs, b < 0x80) :
    utf8DecodeCodes bs = some bs := by
  induction bs with
  | nil => rfl
  | cons b rest ih =>
      rw [utf8DecodeCodes_one b rest (h b (by simp)),
        ih (fun x hx => h x (by simp [hx]))]
      rfl

/-! ## Decimal formatting and parsing of the length header value -/

/-- Decimal digit bytes of `n` (most significant first), with explicit
fuel; `natDigits` below supplies enough fuel, making this the embedding
of Rust's `Display` for `usize`. -/
def natDigitsAux : Nat → Nat → List Nat
  | 0, _ => []
  | fuel + 1, n =>
      if n < 10 then [48 + n]
      else natDigitsAux fuel (n / 10) ++ [48 + n % 10]

/-- Decimal digit bytes of `n`, most significant first. -/
def natDigits (n : Nat) : List Nat := natDigitsAux (n + 1) n

/-- Value of a digit-byte list (the accumulator loop of integer
parsing). -/
def digitsVal (bs : List Nat) : Nat :=
  bs.foldl (fun a b => a * 10 + (b - 48)) 0

/-- Embedding of `str::parse::<usize>()` restricted to the digit-only
strings this protocol produces.  (Rust also accepts a redundant
leading `+`, which no header in these claims uses; overflow, which
`usize` parsing rejects, cannot occur for `Nat`.) -/
def parseDigits (bs : List Nat) : Option Nat :=
  if bs ≠ [] ∧ bs.all (fun b => decide (48 ≤ b) && decide (b ≤ 57)) then
    some (digitsVal bs)
  else none

theorem natDigitsAux_spec : ∀ (fuel n : Nat), n < fuel →
    natDigitsAux fuel n ≠ []
      ∧ (∀ b ∈ natDigitsAux fuel n, 48 ≤ b ∧ b ≤ 57)
      ∧ ∀ a : Nat,
          List.foldl (fun a b => a * 10 + (b - 48)) a (natDigitsAux fuel n)
            = a * 10 ^ (natDigitsAux fuel n).length + n := by
  intro fuel
  induction fuel with
  | zero => intro n h; omega
  | succ f ih =>
      intro n h
      by_cases h10 : n < 10
      · refine ⟨by simp [natDigitsAux, h10], ?_, ?_⟩
        · intro b hb
          simp [natDigitsAux, h10] at hb
          omega
        · intro a
          simp [natDigitsAux, h10, List.foldl]
      · have hfn : n / 10 < f := by omega
        obtain ⟨hne, hdig, hval⟩ := ih (n / 10) hfn
        have heq : natDigitsAux (f + 1) n
            = natDigitsAux f (n / 10) ++ [48 + n % 10] := by
          simp [natDigitsAux, h10]
        refine ⟨by simp [heq], ?_, ?_⟩
        · intro b hb
          rw [heq] at hb
          rcases List.mem_append.mp hb with hb | hb
          · exact hdig b hb
          · simp at hb
            omega
        · intro a
          rw [heq, List.foldl_append, hval a]
          simp only [List.foldl, List.length_append, List.length_cons,
            List.length_nil]
          have h48 : 48 + n % 10 - 48 = n % 10 := by omega
          rw [h48, pow_succ]
          calc (a * 10 ^ (natDigitsAux f (n / 10)).length + n / 10) * 10 + n % 10
              = a * (10 ^ (natDigitsAux f (n / 10)).length * 10)
                  + (n / 10 * 10 + n % 10) := by ring
            _ = a * (10 ^ (natDigitsAux f (n / 10)).length * 10) + n := by
                congr 1
                omega

theorem natDigits_spec (n : Nat) :
    natDigits n ≠ [] ∧ (∀ b ∈ natDigits n, 48 ≤ b ∧ b ≤ 57)
      ∧ digitsVal (natDigits n) = n := by
  obtain ⟨h1, h2, h3⟩ := natDigitsAux_spec (n + 1) n (by omega)
  refine ⟨h1, h2, ?_⟩
  have h0 := h3 0
  simpa [digitsVal, natDigits] using h0

theorem parseDigits_natDigits (n : Nat) : parseDigits (natDigits n) = some n := by
  obtain ⟨h1, h2, h3⟩ := natDigits_spec n
  rw [parseDigits, if_pos, h3]
  refine ⟨h1, ?_⟩
  rw [List.all_eq_true]
  intro b hb
  obtain ⟨hb1, hb2⟩ := h2 b hb
  simp [hb1, hb2]

/-! ## Header reading and message framing -/

/-- ASCII whitespace as `str::trim` removes it.  (The header lines this
protocol emits are ASCII; non-ASCII Unicode whitespace is outside the
model.) -/
def isWsByte (b : Nat) : Bool :=
  (decide (9 ≤ b) && decide (b ≤ 13)) || decide (b = 32)

/-- Embedding of `str::trim` at the byte level. -/
def trimBytes (l : List Nat) : List Nat :=
  ((l.dropWhile isWsByte).reverse.dropWhile isWsByte).reverse

/-- The bytes of the header name `"Content-Length: "` (with its
trailing space, exactly as `strip_prefix` receives it). -/
def clBytes : List Nat := utf8Encode "Content-Length: "

/-- The failure modes of `read_message`; the spec groups them all
under `ProtocolError`. -/
inductive ReadErr where
  | badHeaderEncoding
  | missingContentLength
  | badContentLength
  | truncatedPayload
  | badPayloadEncoding
deriving DecidableEq

/-- Outcome of processing one header line. -/
inductive LineStep where
  | done (n : Nat)
  | cont (cl : Option Nat)

/-- Process one header line (including its terminator bytes), exactly
as the loop body of `read_message` (`src/lsp/mod.rs:97-114`) does: the
line must be valid UTF-8 (`read_line` checks this), it is trimmed; an
empty trimmed line ends the headers (requiring a previously seen
length, `src/lsp/mod.rs:116`); a `Content-Length: ` line replaces the
recorded length after `parse()`; any other header is ignored. -/
def processLine (line : List Nat) (cl : Option Nat) : Except ReadErr LineStep :=
  if (utf8DecodeCodes line).isNone then .error .badHeaderEncoding
  else
    let t := trimBytes line
    if t.isEmpty then
      match cl with
      | some n => .ok (.done n)
      | none => .error .missingContentLength
    else
      match dropStart clBytes t with
      | some v =>
          match parseDigits v with
          | some n => .ok (.cont (some n))
          | none => .error .badContentLength
      | none => .ok (.cont cl)

/-- The header loop of `read_message`: accumulate bytes of the current
line (as `BufRead::read_line` does) up to and including each `\n`;
at end of stream, a pending partial line is still processed, and a
subsequent `read_line` returning 0 bytes yields `Ok(None)`. -/
def headerLoop : Option Nat → List Nat → List Nat → Except ReadErr (Option (Nat × List Nat))
  | cl, acc, [] =>
      if acc.isEmpty then .ok none
      else
        match processLine acc cl with
        | .error e => .error e
        | .ok (.done n) => .ok (some (n, []))
        | .ok (.cont _) => .ok none
  | cl, acc, b :: rest =>
      if b = 10 then
        match processLine (acc ++ [b]) cl with
        | .error e => .error e
        | .ok (.done n) => .ok (some (n, rest))
        | .ok (.cont cl') => headerLoop cl' [] rest
      else headerLoop cl (acc ++ [b]) rest

/-- An LSP message as `read_message` returns it
(`struct LspMessage`, `src/lsp/mod.rs:18-22`). -/
structure LspMessage where
  content_length : Nat
  content : String
deriving DecidableEq

/-- Embedding of `LspProxy::read_message` (`src/lsp/mod.rs:92-126`):
read header lines until the blank line, take the mandatory length,
read exactly that many payload bytes (`read_exact` fails on a short
stream) and decode them as UTF-8.  Returns the message together with
the unconsumed remainder of the stream; `.ok none` models `Ok(None)`
on clean end of stream. -/
def read_message (s : List Nat) : Except ReadErr (Option (LspMessage × List Nat)) :=
  match headerLoop none [] s with
  | .error e => .error e
  | .ok none => .ok none
  | .ok (some (n, rest)) =>
      if rest.length < n then .error .truncatedPayload
      else
        match utf8DecodeStr (rest.take n) with
        | none => .error .badPayloadEncoding
        | some content =>
            .ok (some ({ content_length := n, content := content }, rest.drop n))

/-- Embedding of `LspProxy::write_message` (`src/lsp/mod.rs:129-138`):
the bytes of `write!(w, "Content-Length: {}\r\n\r\n{}", content.len(),
content)` — `content.len()` is the byte length of the UTF-8 encoding.
The flush has no byte-level effect. -/
def write_message (content : String) : List Nat :=
  clBytes ++ natDigits (utf8Encode content).length
    ++ [13, 10, 13, 10] ++ utf8Encode content

theorem clBytes_eq :
    clBytes = [67, 111, 110, 116, 101, 110, 116, 45, 76, 101, 110,
      103, 116, 104, 58, 32] := by
  rfl

theorem headerLoop_line :
    ∀ (xs : List Nat), (∀ b ∈ xs, b ≠ 10) →
    ∀ (cl : Option Nat) (acc r : List Nat),
      headerLoop cl acc (xs ++ 10 :: r) =
        match processLine (acc ++ xs ++ [10]) cl with
        | .error e => .error e
        | .ok (.done n) => .ok (some (n, r))
        | .ok (.cont cl') => headerLoop cl' [] r := by
  intro xs
  induction xs with
  | nil =>
      intro _ cl acc r
      show headerLoop cl acc (10 :: r) = _
      simp [headerLoop]
  | cons x xs ih =>
      intro hx cl acc r
      have hx10 : x ≠ 10 := hx x (by simp)
      show headerLoop cl acc (x :: (xs ++ 10 :: r)) = _
      rw [headerLoop, if_neg hx10,
        ih (fun b hb => hx b (by simp [hb])) cl (acc ++ [x]) r]
      simp [List.append_assoc]

theorem trimBytes_header (D : List Nat) (hD : D ≠ [])
    (hdig : ∀ b ∈ D, 48 ≤ b ∧ b ≤ 57) :
    trimBytes (clBytes ++ D ++ [13, 10]) = clBytes ++ D := by
  rcases List.eq_nil_or_concat D with rfl | ⟨D₀, d, rfl⟩
  · exact absurd rfl hD
  have hd : 48 ≤ d ∧ d ≤ 57 := hdig d (by simp)
  have hdw : isWsByte d = false := by
    simp only [isWsByte, Bool.or_eq_false_iff, Bool.and_eq_false_iff,
      decide_eq_false_iff_not]
    omega
  have h67 : isWsByte 67 = false := rfl
  have h10 : isWsByte 10 = true := rfl
  have h13 : isWsByte 13 = true := rfl
  rw [trimBytes]
  have h1 : (clBytes ++ D₀.concat d ++ [13, 10]).dropWhile isWsByte
      = clBytes ++ D₀.concat d ++ [13, 10] := by
    rw [clBytes_eq]
    simp [List.dropWhile_cons, h67]
  rw [h1]
  have h2 : (clBytes ++ D₀.concat d ++ [13, 10]).reverse
      = 10 :: 13 :: d :: (clBytes ++ D₀).reverse := by
    simp [List.concat_eq_append, List.reverse_append, List.append_assoc]
  rw [h2]
  have h3 : (10 :: 13 :: d :: (clBytes ++ D₀).reverse).dropWhile isWsByte
      = d :: (clBytes ++ D₀).reverse := by
    rw [List.dropWhile_cons, if_pos h10, List.dropWhile_cons, if_pos h13,
      List.dropWhile_cons]
    rw [if_neg (by simp [hdw])]
  rw [h3]
  simp [List.concat_eq_append, List.append_assoc]

theorem processLine_content_length (n : Nat) :
    processLine (clBytes ++ natDigits n ++ [13, 10]) none
      = .ok (.cont (some n)) := by
  obtain ⟨hne, hdig, _⟩ := natDigits_spec n
  have hcl : ∀ b ∈ clBytes, b < 0x80 := by
    rw [clBytes_eq]
    decide
  have hall : ∀ b ∈ clBytes ++ natDigits n ++ [13, 10], b < 0x80 := by
    intro b hb
    rcases List.mem_append.mp hb with hb | hb
    · rcases List.mem_append.mp hb with hb | hb
      · exact hcl b hb
      · have := hdig b hb
        omega
    · simp at hb
      omega
  have hdec := utf8DecodeCodes_ascii _ hall
  rw [processLine, hdec]
  simp only [Option.isNone_some, Bool.false_eq_true, if_false]
  rw [trimBytes_header _ hne hdig]
  have hno : (clBytes ++ natDigits n).isEmpty = false := by
    rw [clBytes_eq]
    rfl
  simp only [hno, Bool.false_eq_true, if_false]
  rw [dropStart_self_append]
  simp [parseDigits_natDigits]

theorem headerLoop_framed (n : Nat) (tail : List Nat) :
    headerLoop none [] (clBytes ++ natDigits n ++ [13, 10, 13, 10] ++ tail)
      = .ok (some (n, tail)) := by
  obtain ⟨hne, hdig, _⟩ := natDigits_spec n
  have hsh : clBytes ++ natDigits n ++ [13, 10, 13, 10] ++ tail
      = (clBytes ++ natDigits n ++ [13]) ++ 10 :: (13 :: 10 :: tail) := by
    simp [List.append_assoc]
  rw [hsh]
  have hcl10 : ∀ b ∈ clBytes, b ≠ 10 := by
    rw [clBytes_eq]
    decide
  have hno10 : ∀ b ∈ clBytes ++ natDigits n ++ [13], b ≠ 10 := by
    intro b hb
    rcases List.mem_append.mp hb with hb | hb
    · rcases List.mem_append.mp hb with hb | hb
      · exact hcl10 b hb
      · have := hdig b hb
        omega
    · simp at hb
      omega
  rw [headerLoop_line _ hno10 none [] _]
  have hsh2 : ([] : List Nat) ++ (clBytes ++ natDigits n ++ [13]) ++ [10]
      = clBytes ++ natDigits n ++ [13, 10] := by
    simp [List.append_assoc]
  rw [hsh2, processLine_content_length]
  show headerLoop (some n) [] ([13] ++ 10 :: tail) = _
  rw [headerLoop_line [13] (by decide) (some n) [] tail]
  rfl

/-! ## C4 — encode/decode round-trip -/

theorem read_message_write_message (p : String) :
    read_message (write_message p) =
      .ok (some ({ content_length := (utf8Encode p).length, content := p }, [])) := by
  rw [write_message, read_message]
  rw [headerLoop_framed]
  simp only [Nat.lt_irrefl, if_false, List.take_length, List.drop_length,
    utf8DecodeStr_utf8Encode]

/-- Claim C4: for every payload string `p`, decoding the bytes produced
by encoding `p` yields exactly `p` (with nothing left unread), the
declared Content-Length equals `p`'s encoded byte length, and the byte
length differs from the character count on a payload with multi-byte
characters and embedded blank lines — so the length is a byte count,
not a character count. -/
theorem c4_framer_roundtrip :
    (∀ p : String,
        read_message (write_message p) =
          .ok (some ({ content_length := (utf8Encode p).length, content := p }, [])))
      ∧ (utf8Encode "é\r\n\r\nλ").length ≠ "é\r\n\r\nλ".data.length :=
  ⟨read_message_write_message, by decide⟩

/-! ## C5 — decode's `None` and error behaviour -/

/-- Claim C5 (counterexample): the claim states `decode` returns `None`
only when end-of-stream is hit before any header bytes are read.  On
the concrete stream holding one complete header line and then EOF —
19 header bytes were read — `read_message` still returns `Ok(None)`:
`read_line` returns 0 at the start of the second line and the code
takes the EOF path, not an error. -/
theorem c5_counterexample_none_after_headers :
    read_message (utf8Encode "Content-Length: 5\r\n") = .ok none
      ∧ utf8Encode "Content-Length: 5\r\n" ≠ [] := by
  constructor
  · rfl
  · decide

/-- Claim C5 (amended): `read_message` returns `Ok(None)` on clean
end-of-stream at the start of any header line — before any bytes at
all, but also after complete header lines; it fails when the blank
line arrives with no length recorded (absent field), when the length
value does not parse as a non-negative integer, and when the stream
ends before the declared number of payload bytes arrive — a header
declaring length `n` followed by fewer than `n` bytes always yields
the truncation error, never a shorter message. -/
theorem c5_decode_errors_amended :
    read_message [] = .ok none
      ∧ (∀ (n : Nat) (rest : List Nat), rest.length < n →
          read_message (clBytes ++ natDigits n ++ [13, 10, 13, 10] ++ rest)
            = .error .truncatedPayload)
      ∧ read_message [13, 10] = .error .missingContentLength
      ∧ read_message (utf8Encode "Content-Length: abc\r\n\r\n")
          = .error .badContentLength := by
  refine ⟨rfl, ?_, rfl, rfl⟩
  intro n rest h
  rw [read_message, headerLoop_framed]
  simp [h]

/-- Witness for C5 (amended): a header declaring length 5 followed by
two payload bytes is a truncation error. -/
theorem c5_decode_errors_amended_witness :
    ([104, 105] : List Nat).length < 5
      ∧ read_message (clBytes ++ natDigits 5 ++ [13, 10, 13, 10] ++ [104, 105])
          = .error .truncatedPayload :=
  ⟨by decide, c5_decode_errors_amended.2.1 5 [104, 105] (by decide)⟩

/-! ## C9 — atomicity of cache replacement under the mutex

`analyze_workspace_static` acquires the tokio mutex once
(`cache.lock().await`, `src/lsp/mod.rs:304`) and holds the guard across
the entire clear-and-repopulate loop; `inject_diagnostics_static`
acquires the same mutex around its lookup (`src/lsp/mod.rs:343`).  The
model below is a small-step system with one writer (the scan) and one
reader (a lookup): a lock can be acquired only while free, the
writer's critical section is the `clear()` followed by the per-file
inserts, and the reader observes the map while holding the lock. -/

/-- The writer's critical-section operations: `cache_lock.clear()`
followed by one conditional insert per scanned file, in scan order
(`src/lsp/mod.rs:305-320`). -/
def scanOps (rules : List RuleFn) (files : List (String × String)) :
    List (Cache → Cache) :=
  (fun _ => []) ::
    files.map (fun f m =>
      let ds := analyzeFileDiags rules f.1 f.2
      if ds.isEmpty then m else m.insert f.1 ds)

/-- Apply a list of cache operations in order. -/
def applyOps (ops : List (Cache → Cache)) (m : Cache) : Cache :=
  ops.foldl (fun acc f => f acc) m

/-- Phase of the scanning (writer) task. -/
inductive WriterPh where
  | idle
  | cs (ops : List (Cache → Cache))
  | done

/-- Phase of the looking-up (reader) task; `done` records what it saw. -/
inductive ReaderPh where
  | idle
  | cs
  | done (observed : Cache)

/-- Global state: the shared map, who holds the mutex, both phases. -/
structure Sys where
  map : Cache
  wlock : Bool
  rlock : Bool
  w : WriterPh
  r : ReaderPh

/-- Interleaving semantics: mutex acquisition requires the mutex free;
the writer mutates only inside its critical section; the reader
observes the map while holding the lock. -/
inductive Step (ops₀ : List (Cache → Cache)) : Sys → Sys → Prop where
  | wAcquire (s : Sys) : s.w = .idle → s.wlock = false → s.rlock = false →
      Step ops₀ s { s with wlock := true, w := .cs ops₀ }
  | wOp (s : Sys) (f : Cache → Cache) (rest : List (Cache → Cache)) :
      s.w = .cs (f :: rest) →
      Step ops₀ s { s with map := f s.map, w := .cs rest }
  | wRelease (s : Sys) : s.w = .cs [] →
      Step ops₀ s { s with wlock := false, w := .done }
  | rAcquire (s : Sys) : s.r = .idle → s.wlock = false → s.rlock = false →
      Step ops₀ s { s with rlock := true, r := .cs }
  | rObserve (s : Sys) : s.r = .cs →
      Step ops₀ s { s with rlock := false, r := .done s.map }

/-- Initial state: the previously published snapshot, mutex free, both
tasks not yet started. -/
def initSys (old : Cache) : Sys :=
  { map := old, wlock := false, rlock := false, w := .idle, r := .idle }

/-- Reachability under the interleaving semantics. -/
def Reach (ops₀ : List (Cache → Cache)) : Sys → Sys → Prop :=
  Relation.ReflTransGen (Step ops₀)

/-- The inductive invariant: outside the writer's critical section the
map is the complete old or the complete new snapshot; inside it, the
remaining operations still lead to the new snapshot; lock discipline
holds; and any recorded observation is a complete snapshot. -/
def SysInv (old : Cache) (ops₀ : List (Cache → Cache)) (s : Sys) : Prop :=
  (s.wlock = false →
      (s.w = .idle ∧ s.map = old)
        ∨ (s.w = .done ∧ s.map = applyOps ops₀ old))
    ∧ (s.wlock = true →
        ∃ rest, s.w = .cs rest ∧ applyOps rest s.map = applyOps ops₀ old)
    ∧ (∀ rest, s.w = .cs rest → s.wlock = true)
    ∧ (s.r = .cs → s.rlock = true)
    ∧ ¬(s.wlock = true ∧ s.rlock = true)
    ∧ (∀ obs, s.r = .done obs → obs = old ∨ obs = applyOps ops₀ old)

theorem stepInv (old : Cache) (ops₀ : List (Cache → Cache)) (s s' : Sys)
    (hinv : SysInv old ops₀ s) (hstep : Step ops₀ s s') :
    SysInv old ops₀ s' := by
  obtain ⟨h1, h2, h3, h4, h5, h6⟩ := hinv
  cases hstep with
  | wAcquire hw hwl hrl =>
      have hmap : s.map = old := by
        rcases h1 hwl with ⟨_, hm⟩ | ⟨hd, _⟩
        · exact hm
        · rw [hw] at hd
          cases hd
      refine ⟨fun hh => by simp at hh, ?_, fun rest _ => rfl, h4, ?_, h6⟩
      · intro _
        exact ⟨ops₀, rfl, by rw [hmap]⟩
      · intro hc
        exact absurd hc.2 (by simp [hrl])
  | wOp f rest hw =>
      have hwl : s.wlock = true := h3 _ hw
      obtain ⟨rest', hcs, happ⟩ := h2 hwl
      rw [hw] at hcs
      injection hcs with hrest
      subst hrest
      refine ⟨fun hh => absurd (show s.wlock = false from hh) (by simp [hwl]),
        ?_, fun rest'' _ => hwl, h4, ?_, h6⟩
      · intro _
        refine ⟨rest, rfl, ?_⟩
        rw [← happ]
        rfl
      · intro hc
        exact h5 ⟨hwl, hc.2⟩
  | wRelease hw =>
      have hwl : s.wlock = true := h3 _ hw
      obtain ⟨rest', hcs, happ⟩ := h2 hwl
      rw [hw] at hcs
      injection hcs with hrest
      have hmap : s.map = applyOps ops₀ old := by
        rw [← happ, ← hrest]
        rfl
      refine ⟨fun _ => Or.inr ⟨rfl, hmap⟩, fun hh => by simp at hh, ?_, h4, ?_, h6⟩
      · intro rest'' hcs'
        cases hcs'
      · intro hc
        exact absurd hc.1 (by simp)
  | rAcquire hr hwl hrl =>
      refine ⟨fun _ => h1 hwl,
        fun hh => absurd (show s.wlock = true from hh) (by simp [hwl]), ?_,
        fun _ => rfl, ?_, fun obs hobs => nomatch hobs⟩
      · intro rest hcs
        exact absurd (h3 rest hcs) (by simp [hwl])
      · intro hc
        exact absurd (show s.wlock = true from hc.1) (by simp [hwl])
  | rObserve hr =>
      have hrl : s.rlock = true := h4 hr
      have hwl : s.wlock = false := by
        by_contra hc
        simp only [Bool.not_eq_false] at hc
        exact h5 ⟨hc, hrl⟩
      have hsnap : s.map = old ∨ s.map = applyOps ops₀ old := by
        rcases h1 hwl with ⟨_, hm⟩ | ⟨_, hm⟩
        · exact Or.inl hm
        · exact Or.inr hm
      refine ⟨fun _ => h1 hwl,
        fun hh => absurd (show s.wlock = true from hh) (by simp [hwl]), h3, ?_, ?_, ?_⟩
      · intro hc
        cases hc
      · intro hc
        exact absurd hc.2 (by simp)
      · intro obs hobs
        cases hobs
        exact hsnap

theorem initInv (old : Cache) (ops₀ : List (Cache → Cache)) :
    SysInv old ops₀ (initSys old) := by
  refine ⟨fun _ => Or.inl ⟨rfl, rfl⟩, ?_, ?_, ?_, ?_, ?_⟩
  · intro hh
    exact absurd hh (by simp [initSys])
  · intro rest hcs
    exact absurd hcs (by simp [initSys])
  · intro hc
    exact absurd hc (by simp [initSys])
  · intro hc
    exact absurd hc.1 (by simp [initSys])
  · intro obs hobs
    exact absurd hobs (by simp [initSys])

theorem reachInv (old : Cache) (ops₀ : List (Cache → Cache)) (s : Sys)
    (h : Reach ops₀ (initSys old) s) : SysInv old ops₀ s := by
  induction h with
  | refl => exact initInv old ops₀
  | tail _ hbc ih => exact stepInv old ops₀ _ _ ih hbc

theorem applyOps_scanOps (rules : List RuleFn) (files : List (String × String)) :
    ∀ m : Cache, applyOps (scanOps rules files) m = scanFiles rules files [] := by
  have haux : ∀ (fs : List (String × String)) (m : Cache),
      applyOps (fs.map (fun f m =>
        let ds := analyzeFileDiags rules f.1 f.2
        if ds.isEmpty then m else m.insert f.1 ds)) m = scanFiles rules fs m := by
    intro fs
    induction fs with
    | nil => intro m; rfl
    | cons f fs ih =>
        intro m
        rcases f with ⟨p, c⟩
        exact ih _
  intro m
  exact haux files []

/-- Claim C9: in every interleaving of one lookup with the scan's
wholesale replacement — under the mutex discipline the source uses —
the value a completed lookup observed is either the complete previous
snapshot or the complete new snapshot `scanFiles rules files []`,
never a partially updated map. -/
theorem c9_lookup_sees_complete_snapshot
    (old : Cache) (rules : List RuleFn) (files : List (String × String))
    (s : Sys) (obs : Cache)
    (hreach : Reach (scanOps rules files) (initSys old) s)
    (hobs : s.r = .done obs) :
    obs = old ∨ obs = scanFiles rules files [] := by
  have hinv := reachInv old _ s hreach
  have h6 := hinv.2.2.2.2.2 obs hobs
  rwa [applyOps_scanOps] at h6

/-- Witness for C9: the reader acquires the mutex, observes, and
releases before the writer starts; the theorem then says its
observation is one of the two snapshots (here, the old one). -/
theorem c9_lookup_sees_complete_snapshot_witness :
    ([("stale", [exC2Diag])] : Cache) = [("stale", [exC2Diag])]
      ∨ ([("stale", [exC2Diag])] : Cache)
          = scanFiles [exRulePrint] [("a.dart", "print(x);")] [] :=
  c9_lookup_sees_complete_snapshot [("stale", [exC2Diag])] [exRulePrint]
    [("a.dart", "print(x);")] _ _
    (Relation.ReflTransGen.tail
      (Relation.ReflTransGen.tail Relation.ReflTransGen.refl
        (Step.rAcquire _ rfl rfl rfl))
      (Step.rObserve _ rfl))
    rfl
